import Mathlib

/-!
Shallow embedding of the FlowG Workflow Execution Engine
(`WorkflowExecutionEngine` in the repository's engine module): the
execution planner (`createExecutionPlan`, Kahn's algorithm), the node
executor (`executeNode` with the six type handlers), and the workflow
driver (`executeWorkflow`).

Modelling conventions, matching the TypeScript source line by line:
* JavaScript runtime values are modelled by the inductive `Value`
  (numbers as `Int`; the engine never performs fractional arithmetic).
  JS truthiness (`a || b`, `if (x)`) is `Value.truthy` / `jsOr`.
* JS objects are association lists without duplicate keys; property
  assignment `o[k] = v` is `setKey` (replaces in place, else appends),
  which matches JS insertion-order semantics for string keys.  The ids
  produced by the application have the shape `type-timestamp`, never
  integer-like strings, so `Object.keys` enumeration is insertion order.
* `Date.now()` and `Math.random().toString(16).substring(2, 66)` are
  modelled by an environment `Env` supplied to the run; no claim depends
  on their values and the theorems quantify over the environment.
* The external 0G services (`zgComputeService`, `zgStorageService`,
  `zgChainService`) are modelled by `Services`: optional uninterpreted
  functions returning `Except String Value`; a rejected promise / thrown
  error is `Except.error`.
* The `while (queue.length > 0)` loop of the planner is `kahnLoop` with
  an explicit fuel argument; fuel `keys.length` is provably sufficient
  (each node id is enqueued at most once), so the fuelled function has
  exactly the semantics of the source loop.
* The engine reports progress through the `onNodeStatusUpdate` callback;
  the run collects those calls in order as a list of `StatusEvent`.  The
  `onExecutionLog` / `console.log` side channel carries no engine state
  and is not modelled.  To make mutation of the caller's node objects
  expressible, `executeNode` returns the node object as it leaves it and
  the driver writes it back into the node list; the source never writes
  to a node, which is what the frame theorem checks.
-/

namespace FlowG

/-- JavaScript runtime values as the engine manipulates them. -/
inductive Value : Type where
  | undefined : Value
  | null : Value
  | bool : Bool → Value
  | num : Int → Value
  | str : String → Value
  | arr : List Value → Value
  | obj : List (String × Value) → Value

/-- JS truthiness: `undefined`, `null`, `false`, `0` and the empty string
are falsy; every object and array (including empty ones) is truthy. -/
def Value.truthy : Value → Bool
  | .undefined => false
  | .null => false
  | .bool b => b
  | .num n => n != 0
  | .str s => s != ""
  | .arr _ => true
  | .obj _ => true

/-- JS `a || b`: `a` when truthy, else `b`. -/
def jsOr (a b : Value) : Value := if a.truthy then a else b

/-- JS optional member access `a?.k`: field of an object, `undefined`
otherwise (also when `a` is `undefined`/`null` or a primitive). -/
def Value.qget : Value → String → Value
  | .obj fields, k => (fields.lookup k).getD .undefined
  | _, _ => .undefined

/-- JS property assignment `o[k] = v` on an association-list object:
an existing key keeps its position and gets the new value, a new key is
appended (JS insertion-order semantics). -/
def setKey {α : Type} (fields : List (String × α)) (k : String) (v : α) :
    List (String × α) :=
  if fields.any (fun p => p.1 == k) then
    fields.map (fun p => if p.1 == k then (k, v) else p)
  else fields ++ [(k, v)]

/-- Fields contributed by a JS object spread `{...a}`: the fields of an
object, nothing for non-objects (the engine only ever spreads objects). -/
def Value.spreadFields : Value → List (String × Value)
  | .obj fields => fields
  | _ => []

mutual
/-- Abstraction of `JSON.stringify` (used only inside a simulated-AI
placeholder string; string escaping is simplified and no claim depends
on this output). -/
def jsonStringify : Value → String
  | .undefined => "undefined"
  | .null => "null"
  | .bool b => if b then "true" else "false"
  | .num n => toString n
  | .str s => "\"" ++ s ++ "\""
  | .arr xs => "[" ++ jsonStringifyList xs ++ "]"
  | .obj fs => "\x7b" ++ jsonStringifyFields fs ++ "\x7d"

def jsonStringifyList : List Value → String
  | [] => ""
  | [x] => jsonStringify x
  | x :: xs => jsonStringify x ++ "," ++ jsonStringifyList xs

def jsonStringifyFields : List (String × Value) → String
  | [] => ""
  | [(k, v)] => "\"" ++ k ++ "\":" ++ jsonStringify v
  | (k, v) :: fs => "\"" ++ k ++ "\":" ++ jsonStringify v ++ "," ++ jsonStringifyFields fs
end

/-- An edge of the workflow graph (`Edge` from `@xyflow/react`); the
engine reads only `source` and `target`. -/
structure Edge : Type where
  source : String
  target : String
deriving DecidableEq

/-- The `data` payload of a `WorkflowNode`: display label, the free-form
`config` bag (an object `Value`, or `undefined`), and the UI-facing
status string (never read by the engine). -/
structure NodeData : Type where
  label : String
  config : Value
  status : String

/-- A workflow node: `id`, the `type` discriminant string, and `data`. -/
structure WorkflowNode : Type where
  id : String
  type : String
  data : NodeData

/-- Read `node.data.config?.k`. -/
def WorkflowNode.qcfg (node : WorkflowNode) (k : String) : Value :=
  node.data.config.qget k

/-! ### Execution planner (`createExecutionPlan`) -/

/-- First-occurrence key list of a JS object built by inserting the given
keys in order (`Object.keys` enumeration order for non-integer-like
string keys). -/
def objKeys (ids : List String) : List String :=
  ids.foldl (fun ks k => if k ∈ ks then ks else ks ++ [k]) []

/-- The planner's edge filter:
`edge.source && edge.target && nodeMap.has(edge.source) && nodeMap.has(edge.target)`.
Note that a node id that is the empty string is falsy in JS, so such an
edge is skipped even when both endpoint nodes exist. -/
def edgeOk (ids : List String) (e : Edge) : Prop :=
  e.source ≠ "" ∧ e.target ≠ "" ∧ e.source ∈ ids ∧ e.target ∈ ids

instance (ids : List String) (e : Edge) : Decidable (edgeOk ids e) := by
  unfold edgeOk; infer_instance

/-- Contents of `dependencies[t]` after the planner's edge pass: the sources of the
accepted edges whose target is `t`, in edge-list order. -/
def depsOf (nodes : List WorkflowNode) (edges : List Edge) : String → List String :=
  fun t =>
    ((edges.filter
        (fun e => decide (edgeOk (nodes.map WorkflowNode.id) e ∧ e.target = t))).map
      Edge.source)

/-- Contents of `inDegree[t]` after the planner's edge pass (one increment per
accepted edge into `t`). JS numbers may go negative during the loop, so
in-degrees are `Int`. -/
def inDegreeInit (nodes : List WorkflowNode) (edges : List Edge) : String → Int :=
  fun t => ((depsOf nodes edges t).length : Int)

/-- One-iteration-per-call rendering of the planner's
`while (queue.length > 0)` loop.  Each iteration shifts `current` from
the queue, appends it to the order, decrements `inDegree[n]` for every
key `n` with `current ∈ dependencies[n]`, and enqueues (in key order)
the keys whose in-degree just became `0`.  The fuel only bounds the
number of iterations; `createExecutionPlan` passes `keys.length`, which
is sufficient because every key is enqueued at most once. -/
def kahnLoop (deps : String → List String) (keys : List String) :
    Nat → (String → Int) → List String → List String → List String
  | 0, _, _, order => order
  | fuel + 1, inDeg, queue, order =>
    match queue with
    | [] => order
    | current :: rest =>
      kahnLoop deps keys fuel
        (fun n => if current ∈ deps n then inDeg n - 1 else inDeg n)
        (rest ++ keys.filter (fun n => decide (current ∈ deps n ∧ inDeg n = 1)))
        (order ++ [current])

/-- The `ExecutionPlan`: the computed order and the dependency map. -/
structure ExecutionPlan : Type where
  executionOrder : List String
  dependencies : String → List String

/-- The planner `createExecutionPlan(nodes, edges)`: Kahn's algorithm exactly as in
the source — build `dependencies`/`inDegree`, seed the queue with the
keys of in-degree `0` in key order, then run the loop. -/
def createExecutionPlan (nodes : List WorkflowNode) (edges : List Edge) :
    ExecutionPlan :=
  let keys := objKeys (nodes.map WorkflowNode.id)
  let deps := depsOf nodes edges
  let inDeg := inDegreeInit nodes edges
  let seed := keys.filter (fun n => decide (inDeg n = 0))
  ⟨kahnLoop deps keys keys.length inDeg seed [], deps⟩

/-! ### External services and environment -/

/-- The 0G compute client (`zgComputeService`): `processData(request)`
returns a result object or rejects (`Except.error`). Uninterpreted. -/
structure ComputeService : Type where
  processData : Value → Except String Value

/-- The 0G storage client (`zgStorageService`). Uninterpreted. -/
structure StorageService : Type where
  storeData : Value → Except String Value
  retrieveData : Value → Except String Value

/-- The 0G chain client (`zgChainService`). Uninterpreted. -/
structure ChainService : Type where
  executeWorkflowOp : Value → Except String Value

/-- The optional service handles held by the engine instance. -/
structure Services : Type where
  compute : Option ComputeService
  storage : Option StorageService
  chain : Option ChainService

/-- Ambient effects: `Date.now()` and the random hex suffix produced by
`Math.random().toString(16).substring(2, 66)`.  No claim depends on
these values. -/
structure Env : Type where
  now : Int
  randHex : String

/-! ### Execution context, status events, node results -/

/-- The `ExecutionContext`: caller-supplied initial inputs (the source field
is called `variables`, a reserved word here) and the per-node `outputs`
map, both JS objects. -/
structure ExecutionContext : Type where
  vars : List (String × Value)
  outputs : List (String × Value)

/-- The status values passed to `onNodeStatusUpdate`. -/
inductive NodeStatus : Type where
  | running : NodeStatus
  | completed : NodeStatus
  | error : NodeStatus
deriving DecidableEq

/-- One `onNodeStatusUpdate(nodeId, status, result?)` callback call. -/
structure StatusEvent : Type where
  nodeId : String
  status : NodeStatus
  result : Option Value

/-- The value returned by `executeNode`:
`{success: true, result}` or `{success: false, error}`. -/
structure NodeResult : Type where
  success : Bool
  result : Option Value
  error : Option String

/-! ### Node executor (`executeNode` and the six type handlers) -/

/-- The helper `getNodeInputs(node, context)`:
`{...context.variables, previousOutputs: context.outputs}`. -/
def getNodeInputs (_node : WorkflowNode) (context : ExecutionContext) : Value :=
  .obj (setKey context.vars "previousOutputs" (.obj context.outputs))

/-- Handler `executeInputNode`: `node.data.config?.value || inputData || ()`
where the last fallback is the empty object literal. -/
def executeInputNode (node : WorkflowNode) (inputData : Value) : Value :=
  jsOr (node.qcfg "value") (jsOr inputData (.obj []))

/-- Handler `executeAIComputeNode`: real `processData` call when the compute
service is configured, else the simulated placeholder result. -/
def executeAIComputeNode (svcs : Services) (node : WorkflowNode)
    (inputData : Value) : Except String Value :=
  match svcs.compute with
  | some c =>
    match c.processData (.obj
        [("data", inputData),
         ("model", jsOr (node.qcfg "model") (.str "llama-3.3-70b-instruct")),
         ("operation", jsOr (node.qcfg "operation") (.str "process"))]) with
    | .error e => .error e
    | .ok result =>
      .ok (.obj
        [("success", result.qget "success"),
         ("result", result.qget "result"),
         ("error", result.qget "error")])
  | none =>
    .ok (.obj
      [("success", .bool true),
       ("result", .str ("AI processed: " ++ (jsonStringify inputData).take 100 ++ "...")),
       ("operation", jsOr (node.qcfg "operation") (.str "process"))])

/-- Handler `executeStorageNode`: `store`/`retrieve` through the storage service
when configured (any other operation falls through the `if` chain and
the function returns `undefined`), else the simulated result. -/
def executeStorageNode (svcs : Services) (env : Env) (node : WorkflowNode)
    (inputData : Value) : Except String Value :=
  match svcs.storage with
  | some s =>
    match jsOr (node.qcfg "operation") (.str "store") with
    | .str "store" =>
      s.storeData (.obj
        [("data", inputData),
         ("filename", node.qcfg "filename"),
         ("metadata", .obj [("nodeId", .str node.id), ("timestamp", .num env.now)])])
    | .str "retrieve" =>
      s.retrieveData (.obj
        [("hash", jsOr (node.qcfg "hash") (.str "")),
         ("verify", jsOr (node.qcfg "verify") (.bool false))])
    | _ => .ok .undefined
  | none =>
    .ok (.obj
      [("success", .bool true),
       ("hash", .str ("0x" ++ env.randHex)),
       ("operation", jsOr (node.qcfg "operation") (.str "store"))])

/-- Handler `executeChainInteractionNode`: `execute` through the chain service
when configured (any other operation falls through and the function
returns `undefined`), else the simulated result. -/
def executeChainInteractionNode (svcs : Services) (env : Env)
    (node : WorkflowNode) (inputData : Value) : Except String Value :=
  match svcs.chain with
  | some c =>
    match jsOr (node.qcfg "operation") (.str "execute") with
    | .str "execute" =>
      c.executeWorkflowOp (.obj
        [("workflowId", .str ("workflow-" ++ toString env.now)),
         ("data", inputData),
         ("gasLimit", node.qcfg "gasLimit")])
    | _ => .ok .undefined
  | none =>
    .ok (.obj
      [("success", .bool true),
       ("transactionHash", .str ("0x" ++ env.randHex)),
       ("operation", jsOr (node.qcfg "operation") (.str "execute"))])

/-- Handler `executeLogicNode`: purely local switch on
`node.data.config?.operation || 'passthrough'`. -/
def executeLogicNode (node : WorkflowNode) (inputData : Value) : Value :=
  match jsOr (node.qcfg "operation") (.str "passthrough") with
  | .str "filter" =>
    .obj [("success", .bool true), ("result", inputData), ("filtered", .bool true)]
  | .str "transform" =>
    .obj [("success", .bool true),
          ("result", .obj (setKey inputData.spreadFields "transformed" (.bool true))),
          ("operation", .str "transform")]
  | .str "aggregate" =>
    .obj [("success", .bool true),
          ("result", .obj [("aggregated", inputData)]),
          ("count", .num (match inputData with | .arr xs => (xs.length : Int) | _ => 1))]
  | _ =>
    .obj [("success", .bool true), ("result", inputData)]

/-- Handler `executeOutputNode`: wraps the input with a format and timestamp. -/
def executeOutputNode (env : Env) (node : WorkflowNode) (inputData : Value) : Value :=
  .obj [("success", .bool true),
        ("output", inputData),
        ("format", jsOr (node.qcfg "format") (.str "json")),
        ("timestamp", .num env.now)]

/-- The `switch (node.type)` dispatch inside `executeNode`'s `try`
block; an unrecognized type throws. -/
def dispatchNode (svcs : Services) (env : Env) (node : WorkflowNode)
    (inputData : Value) : Except String Value :=
  match node.type with
  | "input" => .ok (executeInputNode node inputData)
  | "ai-compute" => executeAIComputeNode svcs node inputData
  | "storage" => executeStorageNode svcs env node inputData
  | "chain-interaction" => executeChainInteractionNode svcs env node inputData
  | "logic" => .ok (executeLogicNode node inputData)
  | "output" => .ok (executeOutputNode env node inputData)
  | t => .error ("Unknown node type: " ++ t)

/-- Everything `executeNode` leaves behind: the node object as the call
leaves it (the source never writes to it), the context, the
`onNodeStatusUpdate` calls made, and the returned result object. -/
structure NodeExecOutcome : Type where
  node : WorkflowNode
  context : ExecutionContext
  events : List StatusEvent
  res : NodeResult

/-- The executor `executeNode(node, context)`: report `running`, dispatch, then on
success store the result in `context.outputs` and report `completed`;
on a thrown error report `error` and return `{success: false, error}`. -/
def executeNode (svcs : Services) (env : Env) (node : WorkflowNode)
    (context : ExecutionContext) : NodeExecOutcome :=
  let inputData := getNodeInputs node context
  match dispatchNode svcs env node inputData with
  | .ok result =>
    ⟨node,
     { context with outputs := setKey context.outputs node.id result },
     [⟨node.id, .running, none⟩, ⟨node.id, .completed, some result⟩],
     ⟨true, some result, none⟩⟩
  | .error msg =>
    ⟨node, context,
     [⟨node.id, .running, none⟩,
      ⟨node.id, .error, some (.obj [("error", .str msg)])⟩],
     ⟨false, none, some msg⟩⟩

/-! ### Workflow driver (`executeWorkflow`) -/

/-- Replace the first element satisfying `p` (the functional meaning of
mutating the object found by `Array.prototype.find`). -/
def updateFirst {α : Type} (l : List α) (p : α → Bool) (x : α) : List α :=
  match l with
  | [] => []
  | a :: as => if p a then x :: as else a :: updateFirst as p x

/-- The driver's loop state: context, accumulated `results` map, the
status events emitted so far, and the (threaded) node list. -/
structure DriverState : Type where
  context : ExecutionContext
  results : List (String × NodeResult)
  events : List StatusEvent
  nodes : List WorkflowNode

/-- The `for (const nodeId of plan.executionOrder)` loop: look the node
up (a miss throws `Node not found`), execute it, record its result, and
on failure throw `Node execution failed: label - error`, which the
driver's `catch` receives. -/
def runNodes (svcs : Services) (env : Env) :
    List String → DriverState → DriverState × Option String
  | [], st => (st, none)
  | nodeId :: rest, st =>
    match st.nodes.find? (fun n => n.id == nodeId) with
    | none => (st, some ("Node not found: " ++ nodeId))
    | some node =>
      let out := executeNode svcs env node st.context
      let st' : DriverState :=
        ⟨out.context, setKey st.results nodeId out.res,
         st.events ++ out.events, updateFirst st.nodes (fun n => n.id == nodeId) out.node⟩
      if out.res.success then runNodes svcs env rest st'
      else
        (st', some ("Node execution failed: " ++ node.data.label ++ " - "
                      ++ out.res.error.getD "undefined"))

/-- The driver's return value. In the `catch` branch the source returns
`results: {}` — the accumulated per-node results are discarded. -/
structure WorkflowResult : Type where
  success : Bool
  results : List (String × NodeResult)
  error : Option String

/-- The driver `executeWorkflow(nodes, edges, initialInputs)`: build the plan, run
the nodes in order, and package the outcome.  Besides the returned
object, the run yields the ordered `onNodeStatusUpdate` calls and the
node list as the engine leaves it. -/
def executeWorkflow (svcs : Services) (env : Env) (nodes : List WorkflowNode)
    (edges : List Edge) (initialInputs : List (String × Value)) :
    WorkflowResult × List StatusEvent × List WorkflowNode :=
  let plan := createExecutionPlan nodes edges
  match runNodes svcs env plan.executionOrder ⟨⟨initialInputs, []⟩, [], [], nodes⟩ with
  | (st, none) => (⟨true, st.results, none⟩, st.events, st.nodes)
  | (st, some msg) => (⟨false, [], some msg⟩, st.events, st.nodes)

/-! ### Derived notions used by the specification claims -/

/-- Number of already-executed (popped) dependencies of `n`: the length
of `order.filter (· ∈ deps n)`.  While `order` has no duplicates this is
the number of decrements `inDegree[n]` has received. -/
def popCount (deps : String → List String) (order : List String) (n : String) : Nat :=
  (order.filter (fun s => decide (s ∈ deps n))).length

/-- Invariant of the planner's loop state, established by the
initialization and preserved by every iteration. -/
structure LoopInv (deps : String → List String) (keys : List String)
    (inDeg : String → Int) (queue order : List String) : Prop where
  keys_nodup : keys.Nodup
  order_nodup : order.Nodup
  queue_nodup : queue.Nodup
  disj : ∀ n, n ∈ order → n ∈ queue → False
  order_sub : ∀ n, n ∈ order → n ∈ keys
  queue_sub : ∀ n, n ∈ queue → n ∈ keys
  deg : ∀ n, n ∈ keys →
    inDeg n = ((deps n).length : Int) - (popCount deps order n : Int)
  queue_deps : ∀ n, n ∈ queue → ∀ s, s ∈ deps n → s ∈ order
  queue_deg : ∀ n, n ∈ queue → inDeg n = 0
  order_deg : ∀ n, n ∈ order → inDeg n ≤ 0
  order_valid : ∀ (j : Nat) (n : String), order[j]? = some n → ∀ s, s ∈ deps n →
    ∃ i : Nat, i < j ∧ order[i]? = some s

/-- One directed edge step of the workflow graph. -/
def edgeStep (edges : List Edge) (s t : String) : Prop :=
  ∃ e, e ∈ edges ∧ e.source = s ∧ e.target = t

/-- The edge list forms an acyclic graph: no nonempty directed path
returns to its starting node. -/
def Acyclic (edges : List Edge) : Prop :=
  ∀ n, ¬ Relation.TransGen (edgeStep edges) n n

/-- The statuses reported for node `i`, in callback order. -/
def evStatuses (evs : List StatusEvent) (i : String) : List NodeStatus :=
  (evs.filter (fun e => e.nodeId == i)).map StatusEvent.status

/-- A causally well-formed per-node status sequence for one run:
nothing, or `running` followed by exactly one terminal status. -/
def OkSeq (l : List NodeStatus) : Prop :=
  l = [] ∨ l = [.running, .completed] ∨ l = [.running, .error]

/-- A concrete node with an empty config, for concrete instances. -/
def mkNode (i ty : String) : WorkflowNode := ⟨i, ty, ⟨i, .obj [], "idle"⟩⟩

/-! Concrete graphs and engine configurations used by the concrete
claims, counterexamples and witnesses. -/

/-- The two-node cycle A→B→A. -/
def cycNodes : List WorkflowNode := [mkNode "A" "logic", mkNode "B" "logic"]

def cycEdges : List Edge := [⟨"A", "B"⟩, ⟨"B", "A"⟩]

/-- Two nodes one of which has the empty string as id (ids are arbitrary
strings in the graph model); listed before the other node. -/
def emptyIdNodes : List WorkflowNode := [mkNode "" "input", mkNode "x" "input"]

/-- An edge into the empty-id node: both endpoints exist, yet the
planner's truthiness guard (`edge.source && edge.target && ...`) skips
it. -/
def emptyIdEdge : Edge := ⟨"x", ""⟩

/-- A plain two-node chain x→y. -/
def pairNodes : List WorkflowNode := [mkNode "x" "input", mkNode "y" "input"]

def pairEdge : Edge := ⟨"x", "y"⟩

/-- Two independent nodes with distinct ids. -/
def twoNodes : List WorkflowNode := [mkNode "a" "input", mkNode "b" "input"]

/-- The three-node chain A→B→C with B an ai-compute node. -/
def chainNodes : List WorkflowNode :=
  [mkNode "A" "input", mkNode "B" "ai-compute", mkNode "C" "output"]

def chainEdges : List Edge := [⟨"A", "B"⟩, ⟨"B", "C"⟩]

/-- An engine whose compute service always rejects with `msg` — the
"B's handler throws" scenario. -/
def failingServices (msg : String) : Services :=
  ⟨some ⟨fun _ => .error msg⟩, none, none⟩

/-- An engine with no 0G services configured (pure simulation mode). -/
def noServices : Services := ⟨none, none, none⟩

def envZero : Env := ⟨0, "0"⟩

/-- A logic node configured with the `aggregate` operation. -/
def aggNode : WorkflowNode :=
  ⟨"L", "logic", ⟨"L", .obj [("operation", .str "aggregate")], "idle"⟩⟩

/-- An input node whose config carries `value: 0` — present but falsy. -/
def zeroValueNode : WorkflowNode :=
  ⟨"I", "input", ⟨"I", .obj [("value", .num 0)], "idle"⟩⟩

/-! ### Lemmas about `objKeys` -/

lemma objKeys_fold_nodup (ids : List String) :
    ∀ acc : List String, acc.Nodup →
      (ids.foldl (fun ks k => if k ∈ ks then ks else ks ++ [k]) acc).Nodup := by
  induction ids with
  | nil => intro acc h; simpa using h
  | cons i ids ih =>
    intro acc h
    simp only [List.foldl_cons]
    apply ih
    by_cases hi : i ∈ acc
    · simpa [hi] using h
    · rw [if_neg hi]
      refine List.Nodup.append h (List.nodup_singleton i) ?_
      intro a ha hb
      simp only [List.mem_singleton] at hb
      exact hi (hb ▸ ha)

lemma objKeys_fold_mem (ids : List String) :
    ∀ (acc : List String) (a : String),
      a ∈ ids.foldl (fun ks k => if k ∈ ks then ks else ks ++ [k]) acc ↔
        a ∈ acc ∨ a ∈ ids := by
  induction ids with
  | nil => simp
  | cons i ids ih =>
    intro acc a
    simp only [List.foldl_cons]
    by_cases hi : i ∈ acc
    · rw [if_pos hi, ih]
      constructor
      · rintro (h | h)
        · exact Or.inl h
        · exact Or.inr (List.mem_cons_of_mem _ h)
      · rintro (h | h)
        · exact Or.inl h
        · rcases List.mem_cons.1 h with rfl | h
          · exact Or.inl hi
          · exact Or.inr h
    · rw [if_neg hi, ih]
      simp only [List.mem_append, List.mem_singleton, List.mem_cons]
      tauto

lemma objKeys_nodup (ids : List String) : (objKeys ids).Nodup :=
  objKeys_fold_nodup ids [] List.nodup_nil

lemma objKeys_mem (ids : List String) (a : String) : a ∈ objKeys ids ↔ a ∈ ids := by
  unfold objKeys
  rw [objKeys_fold_mem]
  simp

lemma objKeys_eq_self (ids : List String) (h : ids.Nodup) : objKeys ids = ids := by
  suffices general : ∀ acc : List String, (∀ a ∈ ids, a ∉ acc) → ids.Nodup →
      ids.foldl (fun ks k => if k ∈ ks then ks else ks ++ [k]) acc = acc ++ ids by
    simpa using general [] (by simp) h
  clear h
  induction ids with
  | nil => intro acc _ _; simp
  | cons i ids ih =>
    intro acc hdisj hnd
    simp only [List.foldl_cons]
    rw [if_neg (hdisj i (List.mem_cons_self i ids))]
    rw [ih (acc ++ [i]) ?_ hnd.of_cons]
    · simp
    · intro a ha
      simp only [List.mem_append, List.mem_singleton]
      rintro (hacc | rfl)
      · exact hdisj a (List.mem_cons_of_mem _ ha) hacc
      · exact (List.nodup_cons.1 hnd).1 ha

/-! ### The key counting argument of Kahn's algorithm

When a node's in-degree reaches `1` and the currently popped node is one
of its dependencies, every one of its dependencies other than the popped
one must already have been popped: the distinct popped dependencies
account for all but one entry of the dependency list. -/

lemma popCount_add_two_le (ord : List String) (hnd : ord.Nodup)
    (L : List String) (s c : String) (hs : s ∈ L) (hc : c ∈ L) (hsc : s ≠ c)
    (hso : s ∉ ord) (hco : c ∉ ord) :
    (ord.filter (fun x => decide (x ∈ L))).length + 2 ≤ L.length := by
  classical
  have hFnd : (ord.filter (fun x => decide (x ∈ L))).Nodup := hnd.filter _
  have hFlen : (ord.filter (fun x => decide (x ∈ L))).toFinset.card =
      (ord.filter (fun x => decide (x ∈ L))).length :=
    List.toFinset_card_of_nodup hFnd
  have hsub : (ord.filter (fun x => decide (x ∈ L))).toFinset ⊆
      L.toFinset \ {s, c} := by
    intro x hx
    rw [List.mem_toFinset, List.mem_filter] at hx
    obtain ⟨hxord, hxL⟩ := hx
    rw [decide_eq_true_iff] at hxL
    rw [Finset.mem_sdiff, List.mem_toFinset]
    refine ⟨hxL, ?_⟩
    simp only [Finset.mem_insert, Finset.mem_singleton]
    rintro (rfl | rfl)
    · exact hso hxord
    · exact hco hxord
  have hpair : ({s, c} : Finset String) ⊆ L.toFinset := by
    intro x hx
    simp only [Finset.mem_insert, Finset.mem_singleton] at hx
    rcases hx with rfl | rfl
    · exact List.mem_toFinset.2 hs
    · exact List.mem_toFinset.2 hc
  have hcard2 : ({s, c} : Finset String).card = 2 := Finset.card_pair hsc
  have h1 : (L.toFinset \ {s, c}).card = L.toFinset.card - 2 := by
    rw [Finset.card_sdiff hpair, hcard2]
  have h2 : 2 ≤ L.toFinset.card := hcard2 ▸ Finset.card_le_card hpair
  have h3 : L.toFinset.card ≤ L.length := L.toFinset_card_le
  have h4 : (ord.filter (fun x => decide (x ∈ L))).toFinset.card ≤
      (L.toFinset \ {s, c}).card := Finset.card_le_card hsub
  omega

/-! ### Preservation and use of the loop invariant -/

lemma kahn_inv_step (deps : String → List String) (keys : List String)
    (inDeg : String → Int) (current : String) (rest order : List String)
    (inv : LoopInv deps keys inDeg (current :: rest) order) :
    LoopInv deps keys
      (fun n => if current ∈ deps n then inDeg n - 1 else inDeg n)
      (rest ++ keys.filter (fun n => decide (current ∈ deps n ∧ inDeg n = 1)))
      (order ++ [current]) := by
  classical
  have hcq : current ∈ current :: rest := List.mem_cons_self current rest
  have hcKeys : current ∈ keys := inv.queue_sub current hcq
  have hcNotOrder : current ∉ order := fun h => inv.disj current h hcq
  have hcDeg : inDeg current = 0 := inv.queue_deg current hcq
  have mem_pushed : ∀ n,
      n ∈ keys.filter (fun n => decide (current ∈ deps n ∧ inDeg n = 1)) ↔
        n ∈ keys ∧ current ∈ deps n ∧ inDeg n = 1 := by
    intro n
    rw [List.mem_filter, decide_eq_true_iff]
  -- every dependency of a node being pushed lies in the new order
  have pushed_deps : ∀ n, n ∈ keys → current ∈ deps n → inDeg n = 1 →
      ∀ s, s ∈ deps n → s ∈ order ++ [current] := by
    intro n hnk hD h1 s hs
    by_contra hnot
    rw [List.mem_append, List.mem_singleton] at hnot
    push_neg at hnot
    obtain ⟨hsno, hsc⟩ := hnot
    have hdeg := inv.deg n hnk
    rw [h1] at hdeg
    have hcount := popCount_add_two_le order inv.order_nodup (deps n) s current
      hs hD hsc hsno hcNotOrder
    unfold popCount at hdeg
    omega
  have pushed_not_order : ∀ n,
      n ∈ keys.filter (fun n => decide (current ∈ deps n ∧ inDeg n = 1)) →
        n ∉ order := by
    intro n hn hmem
    have h1 := ((mem_pushed n).1 hn).2.2
    have := inv.order_deg n hmem
    omega
  have pushed_not_queue : ∀ n,
      n ∈ keys.filter (fun n => decide (current ∈ deps n ∧ inDeg n = 1)) →
        n ∉ current :: rest := by
    intro n hn hmem
    have h1 := ((mem_pushed n).1 hn).2.2
    have := inv.queue_deg n hmem
    omega
  have rest_nodeps : ∀ n, n ∈ rest → current ∉ deps n := by
    intro n hn hD
    exact hcNotOrder (inv.queue_deps n (List.mem_cons_of_mem _ hn) current hD)
  refine ⟨inv.keys_nodup, ?_, ?_, ?_, ?_, ?_, ?_, ?_, ?_, ?_, ?_⟩
  · -- order_nodup
    refine List.Nodup.append inv.order_nodup (List.nodup_singleton current) ?_
    intro a ha hb
    rw [List.mem_singleton] at hb
    exact hcNotOrder (hb ▸ ha)
  · -- queue_nodup
    refine List.Nodup.append (inv.queue_nodup.of_cons) ((inv.keys_nodup).filter _) ?_
    intro a ha hb
    exact pushed_not_queue a hb (List.mem_cons_of_mem _ ha)
  · -- disj
    intro n hord hq
    rw [List.mem_append, List.mem_singleton] at hord
    rw [List.mem_append] at hq
    rcases hord with hord | rfl
    · rcases hq with hq | hq
      · exact inv.disj n hord (List.mem_cons_of_mem _ hq)
      · exact pushed_not_order n hq hord
    · rcases hq with hq | hq
      · exact (List.nodup_cons.1 inv.queue_nodup).1 hq
      · exact pushed_not_queue n hq hcq
  · -- order_sub
    intro n hn
    rw [List.mem_append, List.mem_singleton] at hn
    rcases hn with hn | rfl
    · exact inv.order_sub n hn
    · exact hcKeys
  · -- queue_sub
    intro n hn
    rw [List.mem_append] at hn
    rcases hn with hn | hn
    · exact inv.queue_sub n (List.mem_cons_of_mem _ hn)
    · exact ((mem_pushed n).1 hn).1
  · -- deg
    intro n hnk
    have hold := inv.deg n hnk
    have hsplit : (popCount deps (order ++ [current]) n : Int) =
        (popCount deps order n : Int) + (if current ∈ deps n then 1 else 0) := by
      unfold popCount
      rw [List.filter_append, List.length_append]
      by_cases hD : current ∈ deps n
      · simp [hD]
      · simp [hD]
    show (if current ∈ deps n then inDeg n - 1 else inDeg n) = _
    by_cases hD : current ∈ deps n
    · rw [if_pos hD, hsplit, if_pos hD, hold]
      ring
    · rw [if_neg hD, hsplit, if_neg hD, hold]
      ring
  · -- queue_deps
    intro n hn s hs
    rw [List.mem_append] at hn
    rcases hn with hn | hn
    · exact List.mem_append_left _ (inv.queue_deps n (List.mem_cons_of_mem _ hn) s hs)
    · obtain ⟨hnk, hD, h1⟩ := (mem_pushed n).1 hn
      exact pushed_deps n hnk hD h1 s hs
  · -- queue_deg
    intro n hn
    rw [List.mem_append] at hn
    show (if current ∈ deps n then inDeg n - 1 else inDeg n) = 0
    rcases hn with hn | hn
    · rw [if_neg (rest_nodeps n hn)]
      exact inv.queue_deg n (List.mem_cons_of_mem _ hn)
    · obtain ⟨_, hD, h1⟩ := (mem_pushed n).1 hn
      rw [if_pos hD, h1]
      ring
  · -- order_deg
    intro n hn
    rw [List.mem_append, List.mem_singleton] at hn
    show (if current ∈ deps n then inDeg n - 1 else inDeg n) ≤ 0
    rcases hn with hn | rfl
    · have := inv.order_deg n hn
      by_cases hD : current ∈ deps n
      · rw [if_pos hD]; omega
      · rw [if_neg hD]; omega
    · by_cases hD : n ∈ deps n
      · rw [if_pos hD, hcDeg]; omega
      · rw [if_neg hD, hcDeg]
  · -- order_valid
    intro j n hj s hs
    rcases Nat.lt_trichotomy j order.length with hlt | heq | hgt
    · rw [List.getElem?_append_left hlt] at hj
      obtain ⟨i, hij, hi⟩ := inv.order_valid j n hj s hs
      have hilt : i < order.length := Nat.lt_trans hij hlt
      exact ⟨i, hij, by rw [List.getElem?_append_left hilt]; exact hi⟩
    · subst heq
      rw [List.getElem?_concat_length] at hj
      have hn : n = current := by injection hj with h; exact h.symm
      subst hn
      have hsord : s ∈ order := inv.queue_deps n hcq s hs
      obtain ⟨i, hi⟩ := List.mem_iff_getElem?.1 hsord
      have hilt : i < order.length := by
        by_contra hc
        rw [List.getElem?_eq_none (Nat.le_of_not_lt hc)] at hi
        cases hi
      exact ⟨i, hilt, by rw [List.getElem?_append_left hilt]; exact hi⟩
    · exfalso
      have : (order ++ [current])[j]? = none := by
        apply List.getElem?_eq_none
        rw [List.length_append, List.length_singleton]
        omega
      rw [this] at hj
      cases hj

/-- Master lemma: from any state satisfying the invariant, the loop's
final order has no duplicates, stays inside the key set, and every
dependency of an emitted node is emitted strictly earlier. -/
lemma kahn_master (deps : String → List String) (keys : List String) :
    ∀ (fuel : Nat) (inDeg : String → Int) (queue order : List String),
      LoopInv deps keys inDeg queue order →
      (kahnLoop deps keys fuel inDeg queue order).Nodup ∧
      (∀ n, n ∈ kahnLoop deps keys fuel inDeg queue order → n ∈ keys) ∧
      (∀ (j : Nat) (n : String),
          (kahnLoop deps keys fuel inDeg queue order)[j]? = some n →
        ∀ s, s ∈ deps n →
          ∃ i : Nat, i < j ∧ (kahnLoop deps keys fuel inDeg queue order)[i]? = some s) := by
  intro fuel
  induction fuel with
  | zero =>
    intro inDeg queue order inv
    exact ⟨inv.order_nodup, inv.order_sub, inv.order_valid⟩
  | succ fuel ih =>
    intro inDeg queue order inv
    cases queue with
    | nil =>
      exact ⟨inv.order_nodup, inv.order_sub, inv.order_valid⟩
    | cons current rest =>
      exact ih _ _ _ (kahn_inv_step deps keys inDeg current rest order inv)

/-- The invariant holds for the planner's initial state. -/
lemma kahn_inv_init (nodes : List WorkflowNode) (edges : List Edge) :
    LoopInv (depsOf nodes edges) (objKeys (nodes.map WorkflowNode.id))
      (inDegreeInit nodes edges)
      ((objKeys (nodes.map WorkflowNode.id)).filter
        (fun n => decide (inDegreeInit nodes edges n = 0))) [] := by
  have hseed : ∀ n,
      n ∈ (objKeys (nodes.map WorkflowNode.id)).filter
          (fun n => decide (inDegreeInit nodes edges n = 0)) ↔
        n ∈ objKeys (nodes.map WorkflowNode.id) ∧ inDegreeInit nodes edges n = 0 := by
    intro n
    rw [List.mem_filter, decide_eq_true_iff]
  refine ⟨objKeys_nodup _, List.nodup_nil, (objKeys_nodup _).filter _, ?_, ?_, ?_, ?_, ?_, ?_, ?_, ?_⟩
  · intro n hn; cases hn
  · intro n hn; cases hn
  · intro n hn; exact ((hseed n).1 hn).1
  · intro n _
    unfold inDegreeInit popCount
    simp
  · intro n hn s hs
    have h0 := ((hseed n).1 hn).2
    unfold inDegreeInit at h0
    have : (depsOf nodes edges n).length = 0 := by exact_mod_cast h0
    rw [List.length_eq_zero] at this
    rw [this] at hs
    cases hs
  · intro n hn; exact ((hseed n).1 hn).2
  · intro n hn; cases hn
  · intro j n hj
    rw [List.getElem?_eq_none (by simp)] at hj
    cases hj

/-- Correctness bundle for `createExecutionPlan`'s order. -/
lemma plan_order_props (nodes : List WorkflowNode) (edges : List Edge) :
    (createExecutionPlan nodes edges).executionOrder.Nodup ∧
    (∀ n, n ∈ (createExecutionPlan nodes edges).executionOrder →
      n ∈ nodes.map WorkflowNode.id) ∧
    (∀ (j : Nat) (n : String),
        (createExecutionPlan nodes edges).executionOrder[j]? = some n →
      ∀ s, s ∈ depsOf nodes edges n →
        ∃ i : Nat, i < j ∧
          (createExecutionPlan nodes edges).executionOrder[i]? = some s) := by
  have h := kahn_master (depsOf nodes edges) (objKeys (nodes.map WorkflowNode.id))
    (objKeys (nodes.map WorkflowNode.id)).length (inDegreeInit nodes edges)
    ((objKeys (nodes.map WorkflowNode.id)).filter
      (fun n => decide (inDegreeInit nodes edges n = 0))) []
    (kahn_inv_init nodes edges)
  have hord : (createExecutionPlan nodes edges).executionOrder =
      kahnLoop (depsOf nodes edges) (objKeys (nodes.map WorkflowNode.id))
        (objKeys (nodes.map WorkflowNode.id)).length (inDegreeInit nodes edges)
        ((objKeys (nodes.map WorkflowNode.id)).filter
          (fun n => decide (inDegreeInit nodes edges n = 0))) [] := rfl
  rw [hord]
  exact ⟨h.1, fun n hn => (objKeys_mem _ n).1 (h.2.1 n hn), h.2.2⟩

/-- With an everywhere-empty dependency map the loop simply drains the
queue in order (no in-degree ever changes, nothing is ever pushed). -/
lemma kahnLoop_drain (deps : String → List String) (keys : List String)
    (hdeps : ∀ n, deps n = []) :
    ∀ (queue : List String) (fuel : Nat) (inDeg : String → Int) (order : List String),
      queue.length ≤ fuel →
      kahnLoop deps keys fuel inDeg queue order = order ++ queue := by
  intro queue
  induction queue with
  | nil =>
    intro fuel inDeg order _
    cases fuel <;> simp [kahnLoop]
  | cons current rest ih =>
    intro fuel inDeg order hf
    cases fuel with
    | zero => simp at hf
    | succ fuel =>
      show kahnLoop deps keys fuel _ (rest ++ _) (order ++ [current]) = _
      have hpush : keys.filter (fun n => decide (current ∈ deps n ∧ inDeg n = 1)) = [] := by
        rw [List.filter_eq_nil_iff]
        intro a _
        rw [decide_eq_true_iff]
        rintro ⟨hmem, _⟩
        rw [hdeps a] at hmem
        cases hmem
      rw [hpush, List.append_nil]
      rw [ih fuel _ (order ++ [current]) (by simpa using Nat.le_of_succ_le_succ hf)]
      simp

/-- With no edges the plan's order is exactly the key list. -/
lemma plan_order_nil_edges (nodes : List WorkflowNode) :
    (createExecutionPlan nodes []).executionOrder =
      objKeys (nodes.map WorkflowNode.id) := by
  have hdeps : ∀ n, depsOf nodes [] n = [] := fun _ => rfl
  have hfilter : (objKeys (nodes.map WorkflowNode.id)).filter
      (fun n => decide (inDegreeInit nodes [] n = 0)) =
      objKeys (nodes.map WorkflowNode.id) := by
    rw [List.filter_eq_self]
    intro a _
    rw [decide_eq_true_iff]
    unfold inDegreeInit
    rw [hdeps a]
    rfl
  have hord : (createExecutionPlan nodes []).executionOrder =
      kahnLoop (depsOf nodes []) (objKeys (nodes.map WorkflowNode.id))
        (objKeys (nodes.map WorkflowNode.id)).length (inDegreeInit nodes [])
        ((objKeys (nodes.map WorkflowNode.id)).filter
          (fun n => decide (inDegreeInit nodes [] n = 0))) [] := rfl
  rw [hord, hfilter, kahnLoop_drain (depsOf nodes []) _ hdeps _ _ _ _ (le_refl _)]
  simp

/-- Looking a node up by a mapped id always succeeds. -/
lemma find?_id_isSome (nodes : List WorkflowNode) (i : String)
    (h : i ∈ nodes.map WorkflowNode.id) :
    (nodes.find? (fun n => n.id == i)).isSome = true := by
  induction nodes with
  | nil => simp at h
  | cons a as ih =>
    rw [List.map_cons, List.mem_cons] at h
    by_cases ha : (a.id == i) = true
    · simp [List.find?_cons, ha]
    · rw [List.find?_cons, Bool.eq_false_iff.2 ha]
      apply ih
      rcases h with h | h
      · exact absurd (beq_iff_eq.2 h.symm) ha
      · exact h

/-- A single edge whose endpoints differ forms an acyclic graph. -/
lemma transGen_single_edge (e : Edge) (h : e.source ≠ e.target) :
    ∀ a b, Relation.TransGen (edgeStep [e]) a b → a = e.source ∧ b = e.target := by
  intro a b hab
  induction hab with
  | single hstep =>
    obtain ⟨e', he', hs, ht⟩ := hstep
    rw [List.mem_singleton] at he'
    subst he'
    exact ⟨hs.symm, ht.symm⟩
  | tail _ hstep ih =>
    obtain ⟨e', he', hs, ht⟩ := hstep
    rw [List.mem_singleton] at he'
    subst he'
    exact absurd (hs.trans ih.2).symm (fun hh => h hh.symm)

lemma acyclic_single (e : Edge) (h : e.source ≠ e.target) : Acyclic [e] := by
  intro n hn
  obtain ⟨h1, h2⟩ := transGen_single_edge e h n n hn
  exact h (h1.symm.trans h2)

/-- A filtered edge contributes its source to its target's dependency
list. -/
lemma mem_depsOf (nodes : List WorkflowNode) (edges : List Edge) (e : Edge)
    (he : e ∈ edges) (hok : edgeOk (nodes.map WorkflowNode.id) e) :
    e.source ∈ depsOf nodes edges e.target := by
  unfold depsOf
  rw [List.mem_map]
  refine ⟨e, ?_, rfl⟩
  rw [List.mem_filter, decide_eq_true_iff]
  exact ⟨he, hok, rfl⟩

/-! ### Claim theorems: the execution planner -/

/-- Claim C1, counterexample: the claim fails as stated because the
planner's edge guard uses JS truthiness: an edge whose target is the
node with id `""` (present in the node list) is silently skipped, so no
ordering constraint is produced, and with the empty-id node listed first
the target is emitted at position 0, before its source.  The conjunction
exhibits all premises of the claim (acyclic graph, edge present, both
endpoints in the node list) and the failure of its conclusion. -/
theorem claim_c1_counterexample :
    Acyclic [emptyIdEdge] ∧
    emptyIdEdge ∈ [emptyIdEdge] ∧
    emptyIdEdge.source ∈ emptyIdNodes.map WorkflowNode.id ∧
    emptyIdEdge.target ∈ emptyIdNodes.map WorkflowNode.id ∧
    ¬ (∀ j : Nat,
        (createExecutionPlan emptyIdNodes [emptyIdEdge]).executionOrder[j]? =
            some emptyIdEdge.target →
        ∃ i : Nat, i < j ∧
          (createExecutionPlan emptyIdNodes [emptyIdEdge]).executionOrder[i]? =
            some emptyIdEdge.source) := by
  refine ⟨acyclic_single emptyIdEdge (by decide), List.mem_singleton_self _,
    by decide, by decide, ?_⟩
  intro hcl
  obtain ⟨i, hi, _⟩ := hcl 0 rfl
  omega

/-- Claim C1 (amended): for every node list and edge list forming an
acyclic graph, for every edge (s→t) whose source and target both occur
in the node list *and have nonempty ids*, whenever t appears at some
position of `executionOrder`, s appears at a strictly earlier position.
(The nonempty-id condition is forced by the counterexample; the
acyclicity premise is kept from the claim although the ordering
guarantee holds for arbitrary graphs.) -/
theorem claim_c1_amended (nodes : List WorkflowNode) (edges : List Edge)
    (_hacyc : Acyclic edges) (e : Edge) (he : e ∈ edges)
    (hsrc : e.source ≠ "") (htgt : e.target ≠ "")
    (hs : e.source ∈ nodes.map WorkflowNode.id)
    (ht : e.target ∈ nodes.map WorkflowNode.id)
    (j : Nat)
    (hj : (createExecutionPlan nodes edges).executionOrder[j]? = some e.target) :
    ∃ i : Nat, i < j ∧
      (createExecutionPlan nodes edges).executionOrder[i]? = some e.source :=
  (plan_order_props nodes edges).2.2 j e.target hj e.source
    (mem_depsOf nodes edges e he ⟨hsrc, htgt, hs, ht⟩)

/-- Witness for C1 (amended) at the concrete chain x→y: y is emitted at
position 1 and x indeed appears earlier. -/
theorem claim_c1_witness :
    ∃ i : Nat, i < 1 ∧
      (createExecutionPlan pairNodes [pairEdge]).executionOrder[i]? = some "x" :=
  claim_c1_amended pairNodes [pairEdge] (acyclic_single pairEdge (by decide))
    pairEdge (List.mem_singleton_self _) (by decide) (by decide)
    (by decide) (by decide) 1 rfl

/-- Claim C2: on the two-node cycle A→B, B→A neither node ever reaches
in-degree 0, so the queue is never seeded and `executionOrder` is empty
(length 0) — the cycle is silently dropped, no error is raised. -/
theorem claim_c2 :
    (createExecutionPlan cycNodes cycEdges).executionOrder = [] ∧
    (createExecutionPlan cycNodes cycEdges).executionOrder.length = 0 :=
  ⟨rfl, rfl⟩

/-- Claim C5: with no edges, `executionOrder` is a permutation of the
node ids — it contains every node id exactly once and its length is the
length of the node list.  The node list is assumed to satisfy the data
model's invariant that ids are unique. -/
theorem claim_c5 (nodes : List WorkflowNode)
    (h : (nodes.map WorkflowNode.id).Nodup) :
    (createExecutionPlan nodes []).executionOrder.Perm (nodes.map WorkflowNode.id) ∧
    (∀ i, i ∈ nodes.map WorkflowNode.id →
      (createExecutionPlan nodes []).executionOrder.count i = 1) ∧
    (createExecutionPlan nodes []).executionOrder.length = nodes.length := by
  have heq : (createExecutionPlan nodes []).executionOrder =
      nodes.map WorkflowNode.id := by
    rw [plan_order_nil_edges, objKeys_eq_self _ h]
  refine ⟨?_, ?_, ?_⟩
  · rw [heq]
  · intro i hi
    rw [heq]
    exact List.count_eq_one_of_mem h hi
  · rw [heq, List.length_map]

/-- Witness for C5 on two concrete independent nodes. -/
theorem claim_c5_witness :
    (createExecutionPlan twoNodes []).executionOrder.count "a" = 1 ∧
    (createExecutionPlan twoNodes []).executionOrder.length = twoNodes.length :=
  ⟨(claim_c5 twoNodes (by decide)).2.1 "a" (by decide),
   (claim_c5 twoNodes (by decide)).2.2⟩

/-- Claim C10: every id in `executionOrder` comes from the input node
list and occurs at most once (the order has no duplicates); hence the
driver's `nodes.find(n => n.id === nodeId)` lookup always succeeds and
the `Node not found` branch of `executeWorkflow` is unreachable. -/
theorem claim_c10 (nodes : List WorkflowNode) (edges : List Edge) :
    (∀ i, i ∈ (createExecutionPlan nodes edges).executionOrder →
      i ∈ nodes.map WorkflowNode.id) ∧
    (createExecutionPlan nodes edges).executionOrder.Nodup ∧
    (∀ i, i ∈ (createExecutionPlan nodes edges).executionOrder →
      (nodes.find? (fun n => n.id == i)).isSome = true) := by
  obtain ⟨hnd, hsub, _⟩ := plan_order_props nodes edges
  exact ⟨hsub, hnd, fun i hi => find?_id_isSome nodes i (hsub i hi)⟩

/-- Witness for C10: on a concrete graph the lookup for an emitted id
succeeds. -/
theorem claim_c10_witness :
    (twoNodes.find? (fun n => n.id == "a")).isSome = true :=
  (claim_c10 twoNodes []).2.2 "a" (by decide)

/-! ### Lemmas about the driver -/

/-- The executor returns the node object unchanged: none of the six
handlers nor the dispatch writes to it. -/
lemma executeNode_node (svcs : Services) (env : Env) (node : WorkflowNode)
    (ctx : ExecutionContext) : (executeNode svcs env node ctx).node = node := by
  rcases hd : dispatchNode svcs env node (getNodeInputs node ctx) with msg | result <;>
    simp [executeNode, hd]

/-- Writing the found element back leaves the list unchanged. -/
lemma updateFirst_find?_self {α : Type} (l : List α) (p : α → Bool) (x : α)
    (h : l.find? p = some x) : updateFirst l p x = l := by
  induction l with
  | nil => cases h
  | cons a as ih =>
    rw [List.find?_cons] at h
    show (if p a then x :: as else a :: updateFirst as p x) = a :: as
    by_cases hp : p a = true
    · simp only [hp] at h
      injection h with h'
      rw [if_pos hp, h']
    · simp only [Bool.eq_false_iff.2 hp] at h
      rw [if_neg hp, ih h]

/-- Unfolding `runNodes` one step when the lookup succeeds. -/
lemma runNodes_cons_found (svcs : Services) (env : Env) (nodeId : String)
    (rest : List String) (st : DriverState) (node : WorkflowNode)
    (hfind : st.nodes.find? (fun n => n.id == nodeId) = some node) :
    runNodes svcs env (nodeId :: rest) st =
      if (executeNode svcs env node st.context).res.success then
        runNodes svcs env rest
          ⟨(executeNode svcs env node st.context).context,
           setKey st.results nodeId (executeNode svcs env node st.context).res,
           st.events ++ (executeNode svcs env node st.context).events,
           updateFirst st.nodes (fun n => n.id == nodeId)
             (executeNode svcs env node st.context).node⟩
      else
        (⟨(executeNode svcs env node st.context).context,
          setKey st.results nodeId (executeNode svcs env node st.context).res,
          st.events ++ (executeNode svcs env node st.context).events,
          updateFirst st.nodes (fun n => n.id == nodeId)
            (executeNode svcs env node st.context).node⟩,
         some ("Node execution failed: " ++ node.data.label ++ " - "
                ++ (executeNode svcs env node st.context).res.error.getD "undefined")) := by
  simp only [runNodes, hfind]

/-- Unfolding `runNodes` one step when the lookup fails. -/
lemma runNodes_cons_missing (svcs : Services) (env : Env) (nodeId : String)
    (rest : List String) (st : DriverState)
    (hfind : st.nodes.find? (fun n => n.id == nodeId) = none) :
    runNodes svcs env (nodeId :: rest) st =
      (st, some ("Node not found: " ++ nodeId)) := by
  simp only [runNodes, hfind]

/-- The run never changes the node list: each step writes back the very
node object it looked up, unchanged. -/
lemma runNodes_nodes_eq (svcs : Services) (env : Env) :
    ∀ (order : List String) (st : DriverState),
      ((runNodes svcs env order st).1).nodes = st.nodes := by
  intro order
  induction order with
  | nil => intro st; rfl
  | cons nodeId rest ih =>
    intro st
    cases hfind : st.nodes.find? (fun n => n.id == nodeId) with
    | none => rw [runNodes_cons_missing svcs env nodeId rest st hfind]
    | some node =>
      rw [runNodes_cons_found svcs env nodeId rest st node hfind]
      have hupd : updateFirst st.nodes (fun n => n.id == nodeId)
          (executeNode svcs env node st.context).node = st.nodes := by
        rw [executeNode_node]
        exact updateFirst_find?_self st.nodes _ node hfind
      cases hsucc : (executeNode svcs env node st.context).res.success with
      | false => simp only [hsucc, if_false, Bool.false_eq_true, hupd]
      | true => simp only [hsucc, if_true, ih, hupd]

/-- Per-id status extraction distributes over event concatenation. -/
lemma evStatuses_append (a b : List StatusEvent) (i : String) :
    evStatuses (a ++ b) i = evStatuses a i ++ evStatuses b i := by
  unfold evStatuses
  rw [List.filter_append, List.map_append]

/-- The statuses `executeNode` reports for its own node: `running` then
exactly one terminal status. -/
lemma executeNode_evStatuses_self (svcs : Services) (env : Env)
    (node : WorkflowNode) (ctx : ExecutionContext) :
    evStatuses (executeNode svcs env node ctx).events node.id =
        [.running, .completed] ∨
    evStatuses (executeNode svcs env node ctx).events node.id =
        [.running, .error] := by
  rcases hd : dispatchNode svcs env node (getNodeInputs node ctx) with msg | result
  · right; simp [executeNode, hd, evStatuses]
  · left; simp [executeNode, hd, evStatuses]

/-- The executor reports nothing for any other node id. -/
lemma executeNode_evStatuses_ne (svcs : Services) (env : Env)
    (node : WorkflowNode) (ctx : ExecutionContext) (i : String)
    (h : node.id ≠ i) :
    evStatuses (executeNode svcs env node ctx).events i = [] := by
  have hb : (node.id == i) = false := beq_eq_false_iff_ne.2 h
  rcases hd : dispatchNode svcs env node (getNodeInputs node ctx) with msg | result <;>
    simp [executeNode, hd, evStatuses, hb]

/-- Invariant induction for the driver loop: provided the ids still to
run have no events yet and all accumulated per-id status sequences are
well formed, the final per-id status sequences are well formed. -/
lemma runNodes_evStatuses (svcs : Services) (env : Env) :
    ∀ (order : List String) (st : DriverState),
      order.Nodup →
      (∀ i, i ∈ order → evStatuses st.events i = []) →
      (∀ i, OkSeq (evStatuses st.events i)) →
      ∀ i, OkSeq (evStatuses ((runNodes svcs env order st).1).events i) := by
  intro order
  induction order with
  | nil => intro st _ _ hok i; exact hok i
  | cons nodeId rest ih =>
    intro st hnd hclean hok i
    cases hfind : st.nodes.find? (fun n => n.id == nodeId) with
    | none =>
      rw [runNodes_cons_missing svcs env nodeId rest st hfind]
      exact hok i
    | some node =>
      have hpb' := List.find?_some hfind
      have hpb : (node.id == nodeId) = true := hpb'
      have hid : node.id = nodeId := beq_iff_eq.1 hpb
      have hok' : ∀ i',
          OkSeq (evStatuses (st.events ++ (executeNode svcs env node st.context).events) i') := by
        intro i'
        rw [evStatuses_append]
        by_cases hi' : node.id = i'
        · subst hi'
          rw [hclean node.id (hid ▸ List.mem_cons_self nodeId rest)]
          rw [List.nil_append]
          rcases executeNode_evStatuses_self svcs env node st.context with h | h
          · rw [h]; exact Or.inr (Or.inl rfl)
          · rw [h]; exact Or.inr (Or.inr rfl)
        · rw [executeNode_evStatuses_ne svcs env node st.context i' hi', List.append_nil]
          exact hok i'
      have hclean' : ∀ i', i' ∈ rest →
          evStatuses (st.events ++ (executeNode svcs env node st.context).events) i' = [] := by
        intro i' hi'
        have hne : node.id ≠ i' := by
          rw [hid]
          intro hEq
          exact (List.nodup_cons.1 hnd).1 (hEq ▸ hi')
        rw [evStatuses_append, hclean i' (List.mem_cons_of_mem _ hi'),
          executeNode_evStatuses_ne svcs env node st.context i' hne]
        rfl
      rw [runNodes_cons_found svcs env nodeId rest st node hfind]
      cases hsucc : (executeNode svcs env node st.context).res.success with
      | false =>
        simp only [hsucc, if_false, Bool.false_eq_true]
        exact hok' i
      | true =>
        simp only [hsucc, if_true]
        exact ih _ (List.nodup_cons.1 hnd).2 hclean' hok' i

/-! ### Claim theorems: the workflow driver and the handlers -/

/-- Claim C3, counterexample: on the concrete chain A→B→C where B's
handler throws `boom`, the returned `results` map is empty — the
driver's `catch` returns `results: {}`, discarding the accumulated
per-node results — so `results.A` is absent rather than a retained
success record, refuting the claim. -/
theorem claim_c3_counterexample :
    (executeWorkflow (failingServices "boom") envZero chainNodes chainEdges
        []).1.results = [] ∧
    ((executeWorkflow (failingServices "boom") envZero chainNodes chainEdges
        []).1.results).lookup "A" = none ∧
    ¬ ∃ r : NodeResult,
        ((executeWorkflow (failingServices "boom") envZero chainNodes chainEdges
          []).1.results).lookup "A" = some r ∧ r.success = true := by
  refine ⟨rfl, rfl, ?_⟩
  rintro ⟨r, hr, -⟩
  have hnone : (none : Option NodeResult) = some r := hr
  exact Option.noConfusion hnone

/-- Claim C3 (amended): on three nodes A→B→C where B's handler throws
with message `msg`, the run returns a top-level failure whose error is
exactly `Node execution failed: B - msg` (it names B), and the returned
`results` map is empty — no entry for A, B or C (the source's `catch`
returns `results: {}`).  The per-node progress is still observable
through the status callbacks: A was reported `running` then
`completed`, B `running` then `error`, and C was never reported. -/
theorem claim_c3_amended (msg : String) (env : Env)
    (inputs : List (String × Value)) :
    (executeWorkflow (failingServices msg) env chainNodes chainEdges
        inputs).1.success = false ∧
    (executeWorkflow (failingServices msg) env chainNodes chainEdges
        inputs).1.results = [] ∧
    (executeWorkflow (failingServices msg) env chainNodes chainEdges
        inputs).1.error = some ("Node execution failed: B - " ++ msg) ∧
    evStatuses (executeWorkflow (failingServices msg) env chainNodes chainEdges
        inputs).2.1 "A" = [.running, .completed] ∧
    evStatuses (executeWorkflow (failingServices msg) env chainNodes chainEdges
        inputs).2.1 "B" = [.running, .error] ∧
    evStatuses (executeWorkflow (failingServices msg) env chainNodes chainEdges
        inputs).2.1 "C" = [] :=
  ⟨rfl, rfl, rfl, rfl, rfl, rfl⟩

/-- Claim C4, counterexample: `executeWorkflow` on an empty node list
does not return `{success: false}` — the engine has no empty-graph
guard (the `add nodes first` guard lives in the UI store, outside the
engine), and an empty plan runs to a successful completion. -/
theorem claim_c4_counterexample :
    ¬ ((executeWorkflow noServices envZero [] [] []).1.success = false) := by
  intro h
  have hb : true = false := h
  exact Bool.noConfusion hb

/-- Claim C4 (amended): `executeWorkflow` on an empty node list (any
edge list, services, environment and initial inputs) returns
`{success: true, results: {}}` immediately, without invoking any node
handler and without emitting any status callback: the plan's order is
empty and the event list is empty. -/
theorem claim_c4_amended (svcs : Services) (env : Env) (edges : List Edge)
    (inputs : List (String × Value)) :
    (executeWorkflow svcs env [] edges inputs).1.success = true ∧
    (executeWorkflow svcs env [] edges inputs).1.results = [] ∧
    (executeWorkflow svcs env [] edges inputs).2.1 = [] ∧
    (createExecutionPlan [] edges).executionOrder = [] :=
  ⟨rfl, rfl, rfl, rfl⟩

/-- Claim C6: in any single run, each node's status callback sequence
is causally ordered — empty, or `running` followed by exactly one
terminal `completed`/`error`; in particular no node receives two
`running` calls without an intervening terminal call. -/
theorem claim_c6 (svcs : Services) (env : Env) (nodes : List WorkflowNode)
    (edges : List Edge) (inputs : List (String × Value)) (i : String) :
    OkSeq (evStatuses (executeWorkflow svcs env nodes edges inputs).2.1 i) := by
  have hok := runNodes_evStatuses svcs env
    (createExecutionPlan nodes edges).executionOrder ⟨⟨inputs, []⟩, [], [], nodes⟩
    (plan_order_props nodes edges).1
    (fun _ _ => rfl) (fun _ => Or.inl rfl)
  rcases hr : runNodes svcs env (createExecutionPlan nodes edges).executionOrder
      ⟨⟨inputs, []⟩, [], [], nodes⟩ with ⟨st, e⟩
  rw [hr] at hok
  cases e with
  | none => simpa [executeWorkflow, hr] using hok i
  | some msg => simpa [executeWorkflow, hr] using hok i

/-- Claim C7: the logic handler's `aggregate` operation on `[1,2,3]`
returns `{success: true, result: {aggregated: [1,2,3]}, count: 3}`, and
on the non-array `{x: 1}` returns `count: 1`; the handler is a pure
local function of its arguments, hence deterministic. -/
theorem claim_c7 :
    executeLogicNode aggNode (.arr [.num 1, .num 2, .num 3]) =
      .obj [("success", .bool true),
            ("result", .obj [("aggregated", .arr [.num 1, .num 2, .num 3])]),
            ("count", .num 3)] ∧
    executeLogicNode aggNode (.obj [("x", .num 1)]) =
      .obj [("success", .bool true),
            ("result", .obj [("aggregated", .obj [("x", .num 1)])]),
            ("count", .num 1)] :=
  ⟨rfl, rfl⟩

/-- Claim C8, counterexample: the input handler does not return
`config.value` whenever it is present — presence is tested with JS
truthiness (`config?.value || inputData || {}`), so the present but
falsy value `0` is skipped and the handler returns the merged input
data instead. -/
theorem claim_c8_counterexample :
    zeroValueNode.data.config.qget "value" = Value.num 0 ∧
    executeInputNode zeroValueNode (Value.obj []) = Value.obj [] ∧
    Value.obj [] ≠ Value.num 0 :=
  ⟨rfl, rfl, fun h => Value.noConfusion h⟩

/-- Claim C8 (amended): the input handler returns `config.value` when
it is present *and truthy*; otherwise the merged `inputData` when that
is truthy; otherwise the empty object.  Moreover the merged input data
built by `getNodeInputs` is always an object, hence truthy, so inside
an engine run the empty-object fallback is unreachable. -/
theorem claim_c8_amended :
    (∀ (i ty lb st : String) (fs : List (String × Value)) (v inputData : Value),
        fs.lookup "value" = some v → v.truthy = true →
        executeInputNode ⟨i, ty, ⟨lb, .obj fs, st⟩⟩ inputData = v) ∧
    (∀ (node : WorkflowNode) (inputData : Value),
        (node.qcfg "value").truthy = false → inputData.truthy = true →
        executeInputNode node inputData = inputData) ∧
    (∀ (node : WorkflowNode) (inputData : Value),
        (node.qcfg "value").truthy = false → inputData.truthy = false →
        executeInputNode node inputData = Value.obj []) ∧
    (∀ (node : WorkflowNode) (context : ExecutionContext),
        (getNodeInputs node context).truthy = true) := by
  refine ⟨?_, ?_, ?_, ?_⟩
  · intro i ty lb st fs v inputData hlk hv
    unfold executeInputNode WorkflowNode.qcfg Value.qget jsOr
    simp [hlk, hv]
  · intro node inputData h1 h2
    unfold executeInputNode jsOr
    rw [h1]
    simp [h2]
  · intro node inputData h1 h2
    unfold executeInputNode jsOr
    rw [h1]
    simp [h2]
  · intro node context
    rfl

/-- Witness for C8 (amended), first branch: a present truthy
`config.value` is returned as is. -/
theorem claim_c8_witness :
    executeInputNode ⟨"I", "input", ⟨"I", Value.obj [("value", Value.str "hi")], "idle"⟩⟩
      (Value.num 3) = Value.str "hi" :=
  claim_c8_amended.1 "I" "input" "I" "idle" [("value", Value.str "hi")]
    (Value.str "hi") (Value.num 3) rfl rfl

/-- Claim C9: a run never mutates the caller's nodes — the engine
threads the node list through every step, each step writes back the
node object it looked up unchanged, so the final node list (and in
particular every node's `config`) is the input node list. -/
theorem claim_c9 (svcs : Services) (env : Env) (nodes : List WorkflowNode)
    (edges : List Edge) (inputs : List (String × Value)) :
    (executeWorkflow svcs env nodes edges inputs).2.2 = nodes ∧
    ((executeWorkflow svcs env nodes edges inputs).2.2).map (fun n => n.data.config) =
      nodes.map (fun n => n.data.config) := by
  have hnodes := runNodes_nodes_eq svcs env
    (createExecutionPlan nodes edges).executionOrder ⟨⟨inputs, []⟩, [], [], nodes⟩
  rcases hr : runNodes svcs env (createExecutionPlan nodes edges).executionOrder
      ⟨⟨inputs, []⟩, [], [], nodes⟩ with ⟨st, e⟩
  rw [hr] at hnodes
  simp only [] at hnodes
  have hnodes' : st.nodes = nodes := hnodes
  cases e with
  | none =>
    constructor
    · simpa [executeWorkflow, hr] using hnodes'
    · simp only [executeWorkflow, hr]
      rw [hnodes']
  | some msg =>
    constructor
    · simpa [executeWorkflow, hr] using hnodes'
    · simp only [executeWorkflow, hr]
      rw [hnodes']

/-- Witness for C3 (amended) at the concrete thrown message `boom`. -/
theorem claim_c3_witness :
    (executeWorkflow (failingServices "boom") envZero chainNodes chainEdges
        []).1.error = some "Node execution failed: B - boom" :=
  (claim_c3_amended "boom" envZero []).2.2.1

/-- Witness for C4 (amended) at a concrete engine configuration. -/
theorem claim_c4_witness :
    (executeWorkflow noServices envZero [] [] []).1.success = true :=
  (claim_c4_amended noServices envZero [] []).1

/-- Witness for C6 at a concrete two-node run. -/
theorem claim_c6_witness :
    OkSeq (evStatuses (executeWorkflow noServices envZero twoNodes [] []).2.1 "a") :=
  claim_c6 noServices envZero twoNodes [] [] "a"

/-- Witness for C9 at a concrete two-node run. -/
theorem claim_c9_witness :
    (executeWorkflow noServices envZero twoNodes [] []).2.2 = twoNodes :=
  (claim_c9 noServices envZero twoNodes [] []).1

end FlowG
